import Mathlib

/-!
Shallow embedding of the drag-reorder logic of the `table-r` repository.

The repository contains several variants of a sortable, virtualized,
drag-reorderable table.  Each variant has a `handleDragEnd` handler that
computes the next canonical data array from a drag gesture.  This file embeds
those handlers faithfully (JavaScript array semantics included: negative
`splice` indices, `findIndex` returning `-1`, `data[-1]` being `undefined`)
and proves the spec's claims about them.

A JavaScript array of `T` that may contain `undefined` is modelled as
`List (Option RowData)`; `none` is `undefined`.
-/

/-! ## JavaScript array primitives -/

/-- JavaScript `Array.prototype.splice` start-index normalization:
negative indices count from the end (clamped at 0), positive indices are
clamped at the length. -/
def jsNormStart (len : Nat) (start : Int) : Nat :=
  if start < 0 then ((len : Int) + start).toNat else min start.toNat len

/-- First index satisfying `p`, as an option (helper for `jsFindIndex`). -/
def findIdxOpt (p : α → Bool) : List α → Option Nat
  | [] => none
  | x :: xs => if p x then some 0 else (findIdxOpt p xs).map (· + 1)

/-- JavaScript `Array.prototype.findIndex`: first index satisfying `p`,
or `-1` when no element does. -/
def jsFindIndex (p : α → Bool) (l : List α) : Int :=
  match findIdxOpt p l with
  | some i => (i : Int)
  | none => -1

/-- JavaScript `arr[i]`: `undefined` (here `none`) for a negative or
out-of-range index. -/
def jsGetElem (l : List α) (i : Int) : Option α :=
  if i < 0 then none else l[i.toNat]?

/-- JavaScript `arr.splice(start, 1)`: removes (at most) one element at the
normalized start index; returns the remaining array and the removed element
(`none` when nothing was removed, matching `arr.splice(...)[0]` being
`undefined`). -/
def jsSpliceDelete1 (l : List α) (start : Int) : List α × Option α :=
  let s := jsNormStart l.length start
  (l.take s ++ l.drop (s + 1), l[s]?)

/-- JavaScript `arr.splice(start, 0, x)`: inserts `x` at the normalized
start index. -/
def jsSpliceInsert (l : List α) (start : Int) (x : α) : List α :=
  let s := jsNormStart l.length start
  l.take s ++ x :: l.drop s

/-- The `arrayMove` helper of `@dnd-kit/sortable`, used by the second
component in `src/VirtuosoTable.tsx`:
`newArray.splice(to < 0 ? newArray.length + to : to, 0, newArray.splice(from, 1)[0])`
on a copy of the input.  JavaScript evaluates the first argument (with the
original length) before the inner `splice` shortens the copy.  The result may
contain `undefined` when `from` is out of range. -/
def arrayMove (l : List α) (fromIdx toIdx : Int) : List (Option α) :=
  let newArray := l.map some
  let insertAt : Int := if toIdx < 0 then (newArray.length : Int) + toIdx else toIdx
  let spliced := jsSpliceDelete1 newArray fromIdx
  jsSpliceInsert spliced.1 insertAt spliced.2.join

/-! ## Data model -/

/-- One record of the table (`Person` in `part_002`, restricted to the fields
the column definitions and claims use).  The `id` is the stable unique
identifier; `firstName` and `age` stand for the open-ended sortable fields. -/
structure RowData where
  id : Nat
  firstName : String
  age : Nat
deriving Repr, DecidableEq

/-- One entry of the TanStack `SortingState`: a column id plus a descending
flag, ordered by priority. -/
structure SortRule where
  colId : String
  desc : Bool
deriving Repr, DecidableEq

/-- Ascending comparison of two rows on one column accessor
(the column definitions of `part_002`). -/
def colCompare (colId : String) (r1 r2 : RowData) : Ordering :=
  if colId = "id" then compare r1.id r2.id
  else if colId = "firstName" then compare r1.firstName r2.firstName
  else if colId = "age" then compare r1.age r2.age
  else Ordering.eq

/-- Comparison under one sort rule (descending inverts the column order). -/
def ruleCompare (rule : SortRule) (r1 r2 : RowData) : Ordering :=
  if rule.desc then (colCompare rule.colId r1 r2).swap else colCompare rule.colId r1 r2

/-- Lexicographic comparison under a priority-ordered sorting state. -/
def sortingCompare (sorting : List SortRule) (r1 r2 : RowData) : Ordering :=
  match sorting with
  | [] => Ordering.eq
  | rule :: rest =>
    match ruleCompare rule r1 r2 with
    | Ordering.eq => sortingCompare rest r1 r2
    | o => o

/-- Stable insertion of a row into an already sorted list: the new row goes
before the first element that is not strictly smaller, so equal rows keep
their original relative order. -/
def insertRowSorted (lt : RowData → RowData → Bool) (x : RowData) :
    List RowData → List RowData
  | [] => [x]
  | y :: ys => if lt y x then y :: insertRowSorted lt x ys else x :: y :: ys

/-- Stable insertion sort of the rows. -/
def insertionSortRows (lt : RowData → RowData → Bool) : List RowData → List RowData
  | [] => []
  | x :: xs => insertRowSorted lt x (insertionSortRows lt xs)

/-- The displayed row order: TanStack `getSortedRowModel` consumed as an
opaque collaborator.  With an empty sorting state it yields the canonical
order; otherwise a stable sort by the sorting state. -/
def sortedRows (sorting : List SortRule) (data : List RowData) : List RowData :=
  match sorting with
  | [] => data
  | _ => insertionSortRows (fun r1 r2 => sortingCompare sorting r1 r2 == Ordering.lt) data

/-- JavaScript `data.indexOf(x)`.  The source uses it on row objects held by
the table model, whose `original` references are the canonical array's own
elements; with unique identifiers, structural equality coincides with the
reference equality of `indexOf`. -/
def jsIndexOf (l : List RowData) (x : RowData) : Int :=
  jsFindIndex (fun y => y == x) l

/-! ## The drag-end handlers of the variants -/

namespace SecondTable

/-- `handleDragEnd` of `src/SecondTable.tsx` (lines 140-150); the identical
handler appears in the first component of `src/VirtuosoTable.tsx`
(lines 91-101) and the first component of `src/DnDKitTable.tsx`
(lines 156-167).  `active.id` is the dragged identifier, `over` the hovered
drop-target identifier (`none` when the gesture ended over no target).
Returns the array passed to `onReorder`, or `none` when the callback is not
invoked:

    if (over && active.id !== over.id) {
      const oldIndex = data.findIndex((item) => item.id === active.id);
      const newIndex = data.findIndex((item) => item.id === over.id);
      const newData = [...data];
      newData.splice(oldIndex, 1);
      newData.splice(newIndex, 0, data[oldIndex]);
      onReorder?.(newData);
    } -/
def handleDragEnd (data : List RowData) (activeId : Nat) (over : Option Nat) :
    Option (List (Option RowData)) :=
  match over with
  | none => none
  | some overId =>
    if activeId != overId then
      let oldIndex := jsFindIndex (fun item => item.id == activeId) data
      let newIndex := jsFindIndex (fun item => item.id == overId) data
      let newData := data.map some
      let spliced := jsSpliceDelete1 newData oldIndex
      some (jsSpliceInsert spliced.1 newIndex (jsGetElem data oldIndex))
    else none

/-- The same handler viewed as a state transition on the component's sort
state: the handler body of `SecondTable.tsx` contains no `setSorting` call,
so the sorting state is returned unchanged. -/
def dragEndStep (data : List RowData) (sorting : List SortRule) (activeId : Nat)
    (over : Option Nat) : Option (List (Option RowData)) × List SortRule :=
  (handleDragEnd data activeId over, sorting)

end SecondTable

namespace DnDKitTable

/-- `handleDragEnd` of the `DraggableVirtualTable` component in
`src/DnDKitTable.tsx` (lines 509-526). Unlike `SecondTable.handleDragEnd`
it guards against identifiers that are absent from `data`:

    if (over && active.id !== over.id && onReorder) {
      const activeIndex = data.findIndex((item) => item.id === active.id);
      const overIndex = data.findIndex((item) => item.id === over.id);
      if (activeIndex === -1 || overIndex === -1) return;
      const newData = [...data];
      newData.splice(activeIndex, 1);
      newData.splice(overIndex, 0, data[activeIndex]);
      onReorder(newData);
    } -/
def handleDragEnd (data : List RowData) (activeId : Nat) (over : Option Nat) :
    Option (List (Option RowData)) :=
  match over with
  | none => none
  | some overId =>
    if activeId != overId then
      let activeIndex := jsFindIndex (fun item => item.id == activeId) data
      let overIndex := jsFindIndex (fun item => item.id == overId) data
      if activeIndex == -1 || overIndex == -1 then none
      else
        let newData := data.map some
        let spliced := jsSpliceDelete1 newData activeIndex
        some (jsSpliceInsert spliced.1 overIndex (jsGetElem data activeIndex))
    else none

end DnDKitTable

namespace VirtuosoTable

/-- `handleDragEnd` of the second component in `src/VirtuosoTable.tsx`
(lines 358-369), which delegates the reorder to dnd-kit's `arrayMove`:

    if (!over) return;
    if (active.id !== over.id) {
      const oldIndex = data.findIndex((item) => item.id === active.id);
      const newIndex = data.findIndex((item) => item.id === over.id);
      onReorder?.(arrayMove(data, oldIndex, newIndex));
    } -/
def handleDragEnd (data : List RowData) (activeId : Nat) (over : Option Nat) :
    Option (List (Option RowData)) :=
  match over with
  | none => none
  | some overId =>
    if activeId != overId then
      let oldIndex := jsFindIndex (fun item => item.id == activeId) data
      let newIndex := jsFindIndex (fun item => item.id == overId) data
      some (arrayMove data oldIndex newIndex)
    else none

/-- Transient dnd-kit UI state of the component: the sorting state and the
`activeId` kept for the drag overlay. -/
structure DndUIState where
  sorting : List SortRule
  activeId : Option Nat
deriving Repr, DecidableEq

/-- The drag-end handler as a transition on the full component state.  On
`!over` it returns before `setActiveId(undefined)`; otherwise `activeId` is
reset.  The handler never touches the sorting state. -/
def dragEndStep (data : List RowData) (st : DndUIState) (activeId : Nat)
    (over : Option Nat) : Option (List (Option RowData)) × DndUIState :=
  match over with
  | none => (none, st)
  | some _ => (handleDragEnd data activeId over, { st with activeId := none })

/-- `onDragCancel={() => setActiveId(undefined)}`: a cancelled gesture only
clears the drag-overlay id; no reorder callback, no sorting change. -/
def dragCancelStep (st : DndUIState) : Option (List (Option RowData)) × DndUIState :=
  (none, { st with activeId := none })

end VirtuosoTable

namespace WindowTable

/-- `handleDragEnd` of `src/WindowTable.tsx` (lines 73-106); the identical
handler appears in `unnamed/part_000` (lines 76-111).  `draggedId` is the
string from `event.dataTransfer`, `rowIndex` the displayed (sorted) index of
the drop-target row.  Returns the array passed to `onReorder` (or `none`)
together with the next sorting state:

    const draggedSortedIndex = rows.findIndex((row) => String(row.original.id) === draggedId);
    if (draggedSortedIndex !== -1 && draggedSortedIndex !== rowIndex) {
      const newData = [...data];
      const sourceOriginalIndex = data.findIndex((item) => String(item.id) === draggedId);
      const targetOriginalIndex = data.indexOf(rows[rowIndex].original as T);
      const [movedItem] = newData.splice(sourceOriginalIndex, 1);
      newData.splice(targetOriginalIndex, 0, movedItem);
      if (sorting.length) { setSorting([]); }
      onReorder?.(newData);
    } -/
def handleDragEnd (data : List RowData) (sorting : List SortRule)
    (draggedId : String) (rowIndex : Nat) :
    Option (List (Option RowData)) × List SortRule :=
  let rows := sortedRows sorting data
  let draggedSortedIndex := jsFindIndex (fun row => toString row.id == draggedId) rows
  if draggedSortedIndex != -1 && draggedSortedIndex != (rowIndex : Int) then
    let newData := data.map some
    let sourceOriginalIndex := jsFindIndex (fun item => toString item.id == draggedId) data
    let targetOriginalIndex : Int :=
      match rows[rowIndex]? with
      | some target => jsIndexOf data target
      | none => -1
    let spliced := jsSpliceDelete1 newData sourceOriginalIndex
    let movedItem : Option RowData := spliced.2.join
    let newData2 := jsSpliceInsert spliced.1 targetOriginalIndex movedItem
    let sorting2 := if sorting.length != 0 then ([] : List SortRule) else sorting
    (some newData2, sorting2)
  else (none, sorting)

end WindowTable

namespace ThirdTable

/-- `handleDragEnd` of `ThirdVirtualizedDraggableTable` in `unnamed/part_001`
(lines 79-94).  The dragged row is resolved by identifier against the
canonical array, but the drop target is `rowIndex` — the displayed (sorted,
virtualized) index — used directly as the canonical insert position:

    const draggedIndex = data.findIndex((item) => String(item.id) === draggedId);
    if (draggedIndex !== -1 && draggedIndex !== rowIndex) {
      const newData = [...data];
      const [movedItem] = newData.splice(draggedIndex, 1);
      newData.splice(rowIndex, 0, movedItem);
      onReorder?.(newData);
    } -/
def handleDragEnd (data : List RowData) (draggedId : String) (rowIndex : Nat) :
    Option (List (Option RowData)) :=
  let draggedIndex := jsFindIndex (fun item => toString item.id == draggedId) data
  if draggedIndex != -1 && draggedIndex != (rowIndex : Int) then
    let newData := data.map some
    let spliced := jsSpliceDelete1 newData draggedIndex
    some (jsSpliceInsert spliced.1 (rowIndex : Int) spliced.2.join)
  else none

end ThirdTable

namespace Part000

/-- The `draggable` attribute of a row of `VirtualizedDraggableTable` in
`unnamed/part_000` (line 246):
`draggable={showSortableColumn && sorting.length === 0}`. -/
def rowDraggable (showSortableColumn : Bool) (sorting : List SortRule) : Bool :=
  showSortableColumn && (sorting.length == 0)

end Part000

/-! ## Reference-level model of JavaScript array aliasing

For the frame claim ("the input array is never mutated in place") the arrays
are modelled by reference: a heap holds the allocated arrays, `[...data]`
allocates a fresh one, and `splice` mutates through a reference. -/

/-- A reference to an allocated JavaScript array. -/
abbrev ArrRef := Nat

/-- The allocated JavaScript arrays, indexed by `ArrRef`. -/
structure JsHeap where
  arrays : List (List (Option RowData))
deriving Repr

/-- Dereference an array. -/
def JsHeap.read (h : JsHeap) (r : ArrRef) : List (Option RowData) :=
  (h.arrays[r]?).getD []

/-- Allocate a fresh array holding `v`, returning its reference. -/
def JsHeap.alloc (h : JsHeap) (v : List (Option RowData)) : JsHeap × ArrRef :=
  (⟨h.arrays ++ [v]⟩, h.arrays.length)

/-- Overwrite the array behind `r` (a `splice` mutation). -/
def JsHeap.write (h : JsHeap) (r : ArrRef) (v : List (Option RowData)) : JsHeap :=
  ⟨h.arrays.set r v⟩

/-- The predicate `(item) => item.id === active.id` applied to a JavaScript
array slot that could in principle hold `undefined`. -/
def optRowHasId (wanted : Nat) (x : Option RowData) : Bool :=
  match x with
  | some item => item.id == wanted
  | none => false

namespace SecondTable

/-- `handleDragEnd` of `src/SecondTable.tsx` (lines 140-150) again, now with
the array aliasing explicit; `unnamed/part_001` (lines 86-91) builds its new
array the same way.  `const newData = [...data]` allocates a fresh array and
both `splice` calls mutate only that allocation; `data` is only read. -/
def handleDragEndHeap (h : JsHeap) (dataRef : ArrRef) (activeId : Nat)
    (over : Option Nat) : JsHeap × Option ArrRef :=
  match over with
  | none => (h, none)
  | some overId =>
    if activeId != overId then
      let data := h.read dataRef
      let oldIndex := jsFindIndex (optRowHasId activeId) data
      let newIndex := jsFindIndex (optRowHasId overId) data
      let allocated := h.alloc data
      let h1 := allocated.1
      let newRef := allocated.2
      let h2 := h1.write newRef (jsSpliceDelete1 (h1.read newRef) oldIndex).1
      let h3 := h2.write newRef
        (jsSpliceInsert (h2.read newRef) newIndex (jsGetElem (h2.read dataRef) oldIndex).join)
      (h3, some newRef)
    else (h, none)

end SecondTable

/-! ## The move operation as the spec words it -/

/-- The spec's order-store contract (§4.1), written from the spec's words,
for comparison with the handlers above: resolve both identifiers to canonical
indices by lookup; when either is absent or the two coincide, return the
input unchanged; otherwise remove the element at the source index and
re-insert it at the target index. -/
def moveByIds (data : List RowData) (draggedId targetId : Nat) : List RowData :=
  if draggedId = targetId then data
  else
    match findIdxOpt (fun item => item.id == draggedId) data,
          findIdxOpt (fun item => item.id == targetId) data with
    | some sourceIndex, some targetIndex =>
      match data[sourceIndex]? with
      | some moved => (data.eraseIdx sourceIndex).insertIdx targetIndex moved
      | none => data
    | _, _ => data

/-! ## Concrete rows for the scenario claims -/

/-- Row with id 1 of the spec's sort-then-drag scenario. -/
def row1 : RowData := ⟨1, "First1", 21⟩

/-- Row with id 2 of the spec's sort-then-drag scenario. -/
def row2 : RowData := ⟨2, "First2", 22⟩

/-- Row with id 3 of the spec's sort-then-drag scenario. -/
def row3 : RowData := ⟨3, "First3", 23⟩

/-- A descending sort on the `id` column: makes `[row1, row2, row3]` display
as `[row3, row2, row1]`. -/
def idDescSort : List SortRule := [⟨"id", true⟩]

/-! ## Helper lemmas: findIdxOpt -/

theorem findIdxOpt_congr {p q : α → Bool} :
    ∀ {l : List α}, (∀ x ∈ l, p x = q x) → findIdxOpt p l = findIdxOpt q l
  | [], _ => rfl
  | x :: xs, h => by
    simp only [findIdxOpt, h x (List.mem_cons_self x xs)]
    rw [findIdxOpt_congr fun y hy => h y (List.mem_cons_of_mem x hy)]

theorem findIdxOpt_isSome {p : α → Bool} :
    ∀ {l : List α} {x : α}, x ∈ l → p x = true → (findIdxOpt p l).isSome
  | y :: ys, x, hx, hp => by
    by_cases hy : p y = true
    · simp [findIdxOpt, hy]
    · rcases List.mem_cons.1 hx with rfl | hx'
      · exact absurd hp hy
      · have ih := findIdxOpt_isSome hx' hp
        simp only [findIdxOpt, if_neg hy]
        cases hfx : findIdxOpt p ys with
        | none => rw [hfx] at ih; exact absurd ih (by simp)
        | some j => simp

theorem findIdxOpt_spec {p : α → Bool} :
    ∀ {l : List α} {i : Nat}, findIdxOpt p l = some i →
      ∃ h : i < l.length, p (l.get ⟨i, h⟩) = true
  | x :: xs, i, hfind => by
    by_cases hx : p x = true
    · simp only [findIdxOpt, if_pos hx] at hfind
      obtain rfl : (0 : Nat) = i := Option.some.inj hfind
      exact ⟨Nat.succ_pos _, hx⟩
    · simp only [findIdxOpt, if_neg hx] at hfind
      cases hfx : findIdxOpt p xs with
      | none => rw [hfx] at hfind; exact absurd hfind (by simp)
      | some j =>
        rw [hfx] at hfind
        simp only [Option.map_some'] at hfind
        obtain rfl : j + 1 = i := Option.some.inj hfind
        obtain ⟨hlt, hget⟩ := findIdxOpt_spec hfx
        exact ⟨Nat.succ_lt_succ hlt, hget⟩

theorem findIdxOpt_min {p : α → Bool} :
    ∀ {l : List α} {i j : Nat}, findIdxOpt p l = some i →
      (hj : j < l.length) → p (l.get ⟨j, hj⟩) = true → i ≤ j
  | x :: xs, i, j, hfind, hj, hpj => by
    by_cases hx : p x = true
    · simp only [findIdxOpt, if_pos hx] at hfind
      obtain rfl : (0 : Nat) = i := Option.some.inj hfind
      exact Nat.zero_le _
    · simp only [findIdxOpt, if_neg hx] at hfind
      cases hfx : findIdxOpt p xs with
      | none => rw [hfx] at hfind; exact absurd hfind (by simp)
      | some i' =>
        rw [hfx] at hfind
        simp only [Option.map_some'] at hfind
        obtain rfl : i' + 1 = i := Option.some.inj hfind
        cases j with
        | zero => exact absurd hpj hx
        | succ j' =>
          exact Nat.succ_le_succ (findIdxOpt_min hfx (Nat.lt_of_succ_lt_succ hj) hpj)

theorem jsFindIndex_of_some {p : α → Bool} {l : List α} {i : Nat}
    (h : findIdxOpt p l = some i) : jsFindIndex p l = (i : Int) := by
  simp [jsFindIndex, h]

theorem jsFindIndex_of_none {p : α → Bool} {l : List α}
    (h : findIdxOpt p l = none) : jsFindIndex p l = -1 := by
  simp [jsFindIndex, h]

/-! ## Helper lemmas: splice bridges -/

theorem jsNormStart_natCast (len i : Nat) : jsNormStart len (i : Int) = min i len := by
  simp [jsNormStart]

theorem jsSpliceDelete1_natCast (l : List α) (i : Nat) :
    jsSpliceDelete1 l (i : Int) = (l.eraseIdx i, l[i]?) := by
  simp only [jsSpliceDelete1, jsNormStart_natCast]
  rcases le_or_lt i l.length with hle | hgt
  · rw [Nat.min_eq_left hle, List.eraseIdx_eq_take_drop_succ]
  · rw [Nat.min_eq_right (Nat.le_of_lt hgt), Prod.mk.injEq]
    constructor
    · simp [List.eraseIdx_eq_take_drop_succ,
        List.take_of_length_le (Nat.le_of_lt hgt),
        List.drop_eq_nil_of_le (Nat.le_succ_of_le (Nat.le_refl l.length)),
        List.drop_eq_nil_of_le (Nat.le_succ_of_le (Nat.le_of_lt hgt))]
    · rw [List.getElem?_eq_none (Nat.le_refl _), List.getElem?_eq_none (Nat.le_of_lt hgt)]

theorem jsSpliceInsert_natCast (l : List α) {i : Nat} (h : i ≤ l.length) (x : α) :
    jsSpliceInsert l (i : Int) x = l.take i ++ x :: l.drop i := by
  simp only [jsSpliceInsert, jsNormStart_natCast, Nat.min_eq_left h]

theorem jsGetElem_natCast (l : List α) (i : Nat) : jsGetElem l (i : Int) = l[i]? := by
  simp [jsGetElem]

theorem insertIdx_eq_take_cons_drop (x : α) :
    ∀ (l : List α) (i : Nat), i ≤ l.length →
      l.insertIdx i x = l.take i ++ x :: l.drop i
  | _, 0, _ => by simp [List.insertIdx_zero]
  | [], i + 1, h => by simp at h
  | y :: ys, i + 1, h => by
    rw [List.insertIdx_succ_cons, List.take_succ_cons, List.drop_succ_cons, List.cons_append,
      insertIdx_eq_take_cons_drop x ys i (Nat.le_of_succ_le_succ h)]

theorem map_eraseIdx_comm (f : α → β) (l : List α) (i : Nat) :
    (l.map f).eraseIdx i = (l.eraseIdx i).map f := by
  simp [List.eraseIdx_eq_take_drop_succ, List.map_take, List.map_drop]

/-! ## Helper lemmas: permutations and positions -/

theorem take_getElem_drop (l : List α) (i : Nat) (h : i < l.length) :
    l = l.take i ++ l.get ⟨i, h⟩ :: l.drop (i + 1) := by
  conv_lhs => rw [← List.take_append_drop (i + 1) l]
  rw [List.take_succ]
  simp [List.getElem?_eq_getElem h]

theorem perm_get_cons_eraseIdx (l : List α) (i : Nat) (h : i < l.length) :
    l.Perm (l.get ⟨i, h⟩ :: l.eraseIdx i) := by
  rw [List.eraseIdx_eq_take_drop_succ]
  conv_lhs => rw [take_getElem_drop l i h]
  exact List.perm_middle

theorem insertRowSorted_perm (lt : RowData → RowData → Bool) (x : RowData) :
    ∀ l : List RowData, (insertRowSorted lt x l).Perm (x :: l)
  | [] => List.Perm.refl _
  | y :: ys => by
    simp only [insertRowSorted]
    by_cases h : lt y x = true
    · simp only [h, if_pos]
      exact ((insertRowSorted_perm lt x ys).cons y).trans (List.Perm.swap x y ys)
    · simp [h]

theorem insertionSortRows_perm (lt : RowData → RowData → Bool) :
    ∀ l : List RowData, (insertionSortRows lt l).Perm l
  | [] => List.Perm.refl _
  | x :: xs =>
    (insertRowSorted_perm lt x (insertionSortRows lt xs)).trans
      ((insertionSortRows_perm lt xs).cons x)

theorem sortedRows_perm (sorting : List SortRule) (data : List RowData) :
    (sortedRows sorting data).Perm data := by
  match sorting with
  | [] => exact List.Perm.refl _
  | rule :: rest => exact insertionSortRows_perm _ data

theorem id_inj_of_nodup {data : List RowData}
    (hnd : (data.map RowData.id).Nodup) {y z : RowData}
    (hy : y ∈ data) (hz : z ∈ data) (hid : y.id = z.id) : y = z :=
  List.inj_on_of_nodup_map hnd hy hz hid

/-! ## Claim C7: drop on self is a benign no-op -/

/-- C7 (confirmed): for every data array and every identifier, a drag-end
event whose dragged identifier equals its target identifier leaves the
canonical sequence unchanged and never invokes the reorder callback (the
handlers return without computing a new array), in the dnd-kit based
handlers of `SecondTable.tsx` / `VirtuosoTable.tsx` (both components) /
`DnDKitTable.tsx`. -/
theorem dragOnSelf_noop (data : List RowData) (a : Nat) :
    SecondTable.handleDragEnd data a (some a) = none ∧
    VirtuosoTable.handleDragEnd data a (some a) = none ∧
    DnDKitTable.handleDragEnd data a (some a) = none := by
  refine ⟨?_, ?_, ?_⟩ <;>
    simp [SecondTable.handleDragEnd, VirtuosoTable.handleDragEnd, DnDKitTable.handleDragEnd]

/-! ## Claim C9: cancelled gestures and gestures without a drop target -/

/-- C9 (confirmed): a gesture that ends with no hovered drop target
(`over` absent) commits no mutation, leaves the sort state unchanged and
never invokes the reorder callback; a cancelled gesture only resets the
drag-overlay id, invoking no callback and leaving the sort state unchanged. -/
theorem cancel_or_no_target_noop (data : List RowData) (st : VirtuosoTable.DndUIState)
    (sorting : List SortRule) (a : Nat) :
    VirtuosoTable.dragEndStep data st a none = (none, st) ∧
    SecondTable.dragEndStep data sorting a none = (none, sorting) ∧
    DnDKitTable.handleDragEnd data a none = none ∧
    (VirtuosoTable.dragCancelStep st).1 = none ∧
    (VirtuosoTable.dragCancelStep st).2.sorting = st.sorting :=
  ⟨rfl, rfl, rfl, rfl, rfl⟩

/-! ## Claim C10: part_000 rows are draggable only when unsorted -/

/-- C10 (confirmed): in `VirtualizedDraggableTable` of `unnamed/part_000` a
row is draggable only when the drag-handle column is shown and the sort
state is empty; with an empty sort state the displayed order is the
canonical order, so a displayed-versus-canonical index mismatch is
unreachable in that variant. -/
theorem part000_draggable_only_unsorted (showSC : Bool) (sorting : List SortRule)
    (data : List RowData) (h : Part000.rowDraggable showSC sorting = true) :
    showSC = true ∧ sorting = [] ∧ sortedRows sorting data = data := by
  simp only [Part000.rowDraggable, Bool.and_eq_true, beq_iff_eq] at h
  obtain ⟨h1, h2⟩ := h
  have hs : sorting = [] := List.length_eq_zero.mp h2
  subst hs
  exact ⟨h1, rfl, rfl⟩

/-- Witness for C10 at a concrete input. -/
theorem part000_draggable_only_unsorted_witness :
    Part000.rowDraggable true [] = true ∧
    (true = true ∧ ([] : List SortRule) = [] ∧
      sortedRows [] [row1, row2] = [row1, row2]) :=
  ⟨by decide, part000_draggable_only_unsorted true [] [row1, row2] (by decide)⟩

/-! ## Claim C3: absent identifiers -/

/-- C3 (code_bug): evaluation at the failing input.  The claim (and spec
§4.1/§8) requires a silent no-op when the dragged identifier is absent from
the data.  The guarded handler of `DnDKitTable.tsx` (lines 509-526) does
no-op, but the handler of `SecondTable.tsx` (lines 140-150) computes
`findIndex = -1`, so `newData.splice(-1, 1)` removes the LAST row and
`newData.splice(newIndex, 0, data[-1])` inserts `undefined`: for
`data = [{id:1},{id:2}]`, dragged id `3` (absent) over id `1`, the reorder
callback receives `[undefined, {id:1}]` instead of the unchanged input. -/
theorem secondTable_absent_id_corrupts_eval :
    SecondTable.handleDragEnd [row1, row2] 3 (some 1) = some [none, some row1] ∧
    DnDKitTable.handleDragEnd [row1, row2] 3 (some 1) = none ∧
    [none, some row1] ≠ [row1, row2].map some := by decide

/-! ## Claim C5: the sort-then-drag scenario -/

/-- C5 counterexample: at the spec's scenario input (canonical
`[{id:1},{id:2},{id:3}]`, descending sort displaying `[3,2,1]`, drag id 3
onto the row with id 1, i.e. onto displayed index 2) the code produces
canonical `[{id:3},{id:1},{id:2}]`, not the `[{id:2},{id:1},{id:3}]` the
claim asserts. -/
theorem sortThenDrag_scenario_cex :
    sortedRows idDescSort [row1, row2, row3] = [row3, row2, row1] ∧
    (WindowTable.handleDragEnd [row1, row2, row3] idDescSort "3" 2).1 =
      some [some row3, some row1, some row2] ∧
    some [some row3, some row1, some row2] ≠ some ([row2, row1, row3].map some) := by
  decide

/-- C5 (corrected): the scenario gesture produces canonical
`[{id:3},{id:1},{id:2}]` (id 3 moved to the canonical position id 1
occupied, both identifiers resolved against the canonical array) and the
sort state is cleared. -/
theorem sortThenDrag_scenario_amended :
    WindowTable.handleDragEnd [row1, row2, row3] idDescSort "3" 2 =
      (some [some row3, some row1, some row2], []) := by decide

/-! ## Claim C4: sort state on commit -/

/-- C4 counterexample: the handler of `SecondTable.tsx` commits a reorder
(the callback is invoked with a new array) while leaving a non-empty sort
state untouched — its body contains no `setSorting` call — so the claim
"for every table variant ... the sort state is cleared" fails. -/
theorem secondTable_commit_keeps_sorting_cex :
    (SecondTable.dragEndStep [row1, row2] [⟨"firstName", true⟩] 1 (some 2)).1 =
      some [some row2, some row1] ∧
    (SecondTable.dragEndStep [row1, row2] [⟨"firstName", true⟩] 1 (some 2)).2 =
      [⟨"firstName", true⟩] ∧
    ([⟨"firstName", true⟩] : List SortRule) ≠ [] := by decide

/-- C4 (corrected): in the `WindowTable.tsx` / `part_000` variant, whenever
the drag-end handler commits a reorder, the sort state it leaves behind is
the empty sorting list; the dnd-kit based variants and `part_001` do not
touch the sort state. -/
theorem windowTable_commit_clears_sorting (data : List RowData) (sorting : List SortRule)
    (draggedId : String) (rowIndex : Nat) (out : List (Option RowData))
    (hcommit : (WindowTable.handleDragEnd data sorting draggedId rowIndex).1 = some out) :
    (WindowTable.handleDragEnd data sorting draggedId rowIndex).2 = [] := by
  simp only [WindowTable.handleDragEnd] at hcommit ⊢
  split at hcommit
  next hguard =>
    rw [if_pos hguard]
    cases sorting with
    | nil => simp
    | cons rule rest => simp
  next hguard => simp at hcommit

/-- Witness for C4's amended theorem at a concrete input. -/
theorem windowTable_commit_clears_sorting_witness :
    (WindowTable.handleDragEnd [row1, row2, row3] idDescSort "3" 2).1 =
      some [some row3, some row1, some row2] ∧
    (WindowTable.handleDragEnd [row1, row2, row3] idDescSort "3" 2).2 = [] :=
  ⟨by decide, windowTable_commit_clears_sorting [row1, row2, row3] idDescSort "3" 2
    [some row3, some row1, some row2] (by decide)⟩

/-! ## Claim C1: identifier resolution versus displayed position -/

/-- C1 counterexample: in `ThirdVirtualizedDraggableTable` of
`unnamed/part_001` (a variant whose rows stay draggable while a sort is
active), with canonical `[{id:1},{id:2},{id:3}]` and a descending sort
displaying `[3,2,1]`, dragging id 2 onto displayed index 0 — the row with
id 3 — commits `[{id:2},{id:1},{id:3}]`: the displayed position index 0 was
used directly as the canonical insert position.  Resolving both ends by
identifier against the canonical array (the spec's § 4.1 move) yields
`[{id:1},{id:3},{id:2}]` instead, so the claim fails for this variant. -/
theorem thirdTable_target_by_displayed_index_cex :
    sortedRows idDescSort [row1, row2, row3] = [row3, row2, row1] ∧
    ThirdTable.handleDragEnd [row1, row2, row3] "2" 0 =
      some [some row2, some row1, some row3] ∧
    (moveByIds [row1, row2, row3] 2 3).map some = [some row1, some row3, some row2] ∧
    some ((moveByIds [row1, row2, row3] 2 3).map some) ≠
      some [some row2, some row1, some row3] := by decide

/-! ## More bridge lemmas for the commit path -/

theorem jsSpliceDelete1_fst (l : List α) (i : Nat) :
    (jsSpliceDelete1 l (i : Int)).1 = l.eraseIdx i := by
  rw [jsSpliceDelete1_natCast]

theorem jsSpliceDelete1_snd (l : List α) (i : Nat) :
    (jsSpliceDelete1 l (i : Int)).2 = l[i]? := by
  rw [jsSpliceDelete1_natCast]

theorem map_insertIdx_comm (f : α → β) (l : List α) {i : Nat} (h : i ≤ l.length) (x : α) :
    (l.map f).take i ++ f x :: (l.map f).drop i = (l.insertIdx i x).map f := by
  rw [insertIdx_eq_take_cons_drop x l i h]
  simp [List.map_take, List.map_drop]

theorem idx_eq_of_nodup_ids {l : List RowData} (hnd : (l.map RowData.id).Nodup)
    {i j : Nat} (hi : i < l.length) (hj : j < l.length)
    (heq : (l.get ⟨i, hi⟩).id = (l.get ⟨j, hj⟩).id) : i = j := by
  have hi' : i < (l.map RowData.id).length := by simpa using hi
  have hj' : j < (l.map RowData.id).length := by simpa using hj
  have hmap : (l.map RowData.id).get ⟨i, hi'⟩ = (l.map RowData.id).get ⟨j, hj'⟩ := by
    simp only [List.get_eq_getElem, List.getElem_map]
    simpa [List.get_eq_getElem] using heq
  exact congrArg Fin.val ((List.Nodup.get_inj_iff hnd).mp hmap)

theorem filter_insertIdx_eraseIdx (data : List RowData) {src tgt : Nat} {x : RowData}
    (hsrclt : src < data.length) (hx : data.get ⟨src, hsrclt⟩ = x)
    (htgt : tgt ≤ (data.eraseIdx src).length) {p : RowData → Bool} (hpx : p x = false) :
    ((data.eraseIdx src).insertIdx tgt x).filter p = data.filter p := by
  rw [insertIdx_eq_take_cons_drop x _ tgt htgt, List.filter_append, List.filter_cons, hpx]
  simp only [Bool.false_eq_true, if_neg, ite_false]
  rw [← List.filter_append, List.take_append_drop]
  conv_rhs => rw [take_getElem_drop data src hsrclt]
  rw [List.eraseIdx_eq_take_drop_succ, List.filter_append, List.filter_append, hx,
    List.filter_cons, hpx]
  simp

/-- Shared commit computation of the three dnd-kit drag-end handlers: when
both identifiers resolve to in-range canonical indices and differ, each
handler commits the erase-then-insert of the dragged row. -/
theorem dndkit_commit_eq (data : List RowData) (a b : Nat) {src tgt : Nat}
    (hsrc : findIdxOpt (fun item => item.id == a) data = some src)
    (htgt : findIdxOpt (fun item => item.id == b) data = some tgt)
    (hab : a ≠ b) (hsrclt : src < data.length) (htgtlt : tgt < data.length) :
    SecondTable.handleDragEnd data a (some b) =
      some (((data.eraseIdx src).insertIdx tgt (data.get ⟨src, hsrclt⟩)).map some) ∧
    DnDKitTable.handleDragEnd data a (some b) =
      some (((data.eraseIdx src).insertIdx tgt (data.get ⟨src, hsrclt⟩)).map some) ∧
    VirtuosoTable.handleDragEnd data a (some b) =
      some (((data.eraseIdx src).insertIdx tgt (data.get ⟨src, hsrclt⟩)).map some) := by
  have hne : (a != b) = true := bne_iff_ne.mpr hab
  have hfs := jsFindIndex_of_some hsrc
  have hft := jsFindIndex_of_some htgt
  have hgetmap : (data.map some)[src]? = some (some (data.get ⟨src, hsrclt⟩)) := by
    rw [List.getElem?_map, List.getElem?_eq_getElem hsrclt]
    simp [List.get_eq_getElem]
  have hgetdata : data[src]? = some (data.get ⟨src, hsrclt⟩) := by
    rw [List.getElem?_eq_getElem hsrclt]
    simp [List.get_eq_getElem]
  have htgtle : tgt ≤ ((data.map some).eraseIdx src).length := by
    rw [map_eraseIdx_comm, List.length_map, List.length_eraseIdx, if_pos hsrclt]
    omega
  have htgtle' : tgt ≤ (data.eraseIdx src).length := by
    rw [List.length_eraseIdx, if_pos hsrclt]
    omega
  have hinsert : jsSpliceInsert ((data.map some).eraseIdx src) ((tgt : Nat) : Int)
      (some (data.get ⟨src, hsrclt⟩)) =
      ((data.eraseIdx src).insertIdx tgt (data.get ⟨src, hsrclt⟩)).map some := by
    rw [jsSpliceInsert_natCast _ htgtle, map_eraseIdx_comm]
    exact map_insertIdx_comm some (data.eraseIdx src) htgtle' _
  refine ⟨?_, ?_, ?_⟩
  · simp only [SecondTable.handleDragEnd]
    rw [if_pos hne, hfs, hft, jsSpliceDelete1_fst, jsGetElem_natCast, hgetdata, hinsert]
  · simp only [DnDKitTable.handleDragEnd]
    rw [if_pos hne, hfs, hft]
    have hsrcne : (((src : Nat) : Int) == -1) = false := by
      simp only [beq_eq_false_iff_ne, ne_eq]
      omega
    have htgtne : (((tgt : Nat) : Int) == -1) = false := by
      simp only [beq_eq_false_iff_ne, ne_eq]
      omega
    rw [hsrcne, htgtne]
    simp only [Bool.or_self, Bool.false_eq_true, if_neg, ite_false]
    rw [jsSpliceDelete1_fst, jsGetElem_natCast, hgetdata, hinsert]
  · simp only [VirtuosoTable.handleDragEnd, arrayMove]
    rw [if_pos hne, hfs, hft]
    have hnonneg : ¬ (((tgt : Nat) : Int) < 0) := by omega
    rw [if_neg hnonneg, jsSpliceDelete1_fst, jsSpliceDelete1_snd, hgetmap]
    simp only [Option.join]
    exact congrArg some hinsert

/-! ## Claim C2: the move is a permutation -/

/-- C2 (confirmed): for every data array with unique identifiers and every
pair of identifiers present in it with `a ≠ b`, the array computed by the
drag-end handler (of `SecondTable.tsx`, and equally the guarded handler of
`DnDKitTable.tsx`) is a permutation of the input: same length, same multiset
of rows — no row created, destroyed or duplicated. -/
theorem secondTable_move_perm (data : List RowData) (a b : Nat)
    (_hnd : (data.map RowData.id).Nodup)
    (ha : a ∈ data.map RowData.id) (hb : b ∈ data.map RowData.id) (hab : a ≠ b) :
    ∃ out, SecondTable.handleDragEnd data a (some b) = some out ∧
      out.Perm (data.map some) ∧
      DnDKitTable.handleDragEnd data a (some b) = some out := by
  obtain ⟨ra, hra, hraid⟩ := List.mem_map.1 ha
  obtain ⟨rb, hrb, hrbid⟩ := List.mem_map.1 hb
  obtain ⟨src, hsrc⟩ := Option.isSome_iff_exists.mp
    (findIdxOpt_isSome (p := fun item => item.id == a) hra (by simp [hraid]))
  obtain ⟨tgt, htgt⟩ := Option.isSome_iff_exists.mp
    (findIdxOpt_isSome (p := fun item => item.id == b) hrb (by simp [hrbid]))
  obtain ⟨hsrclt, hsrcp⟩ := findIdxOpt_spec hsrc
  obtain ⟨htgtlt, _⟩ := findIdxOpt_spec htgt
  obtain ⟨hsecond, hdnd, _⟩ := dndkit_commit_eq data a b hsrc htgt hab hsrclt htgtlt
  refine ⟨_, hsecond, ?_, hdnd⟩
  have htle : tgt ≤ (data.eraseIdx src).length := by
    rw [List.length_eraseIdx, if_pos hsrclt]
    omega
  exact ((List.perm_insertIdx _ _ htle).trans
    (perm_get_cons_eraseIdx data src hsrclt).symm).map some

/-- Witness for C2 at a concrete input. -/
theorem secondTable_move_perm_witness :
    ∃ out, SecondTable.handleDragEnd [row1, row2, row3] 1 (some 3) = some out ∧
      out.Perm ([row1, row2, row3].map some) ∧
      DnDKitTable.handleDragEnd [row1, row2, row3] 1 (some 3) = some out :=
  secondTable_move_perm [row1, row2, row3] 1 3 (by decide) (by decide) (by decide)
    (by decide)

/-! ## Claim C6: move semantics and order stability -/

/-- C6 (confirmed): for both identifiers present and distinct, the handlers
of `SecondTable.tsx` and of the arrayMove-based component of
`VirtuosoTable.tsx` implement move semantics, not swap: the dragged element
(the first one carrying the dragged identifier) is removed at its canonical
source index and re-inserted at the canonical target index, and filtering
the moved identifier out of the result gives exactly the input with that
identifier filtered out — every untouched element keeps its relative order. -/
theorem secondTable_move_semantics_stable (data : List RowData) (a b : Nat)
    (ha : a ∈ data.map RowData.id) (hb : b ∈ data.map RowData.id) (hab : a ≠ b) :
    ∃ src tgt x,
      findIdxOpt (fun item => item.id == a) data = some src ∧
      findIdxOpt (fun item => item.id == b) data = some tgt ∧
      data[src]? = some x ∧ x.id = a ∧
      SecondTable.handleDragEnd data a (some b) =
        some (((data.eraseIdx src).insertIdx tgt x).map some) ∧
      VirtuosoTable.handleDragEnd data a (some b) =
        some (((data.eraseIdx src).insertIdx tgt x).map some) ∧
      ((data.eraseIdx src).insertIdx tgt x).filter (fun r => !(r.id == a)) =
        data.filter (fun r => !(r.id == a)) := by
  obtain ⟨ra, hra, hraid⟩ := List.mem_map.1 ha
  obtain ⟨rb, hrb, hrbid⟩ := List.mem_map.1 hb
  obtain ⟨src, hsrc⟩ := Option.isSome_iff_exists.mp
    (findIdxOpt_isSome (p := fun item => item.id == a) hra (by simp [hraid]))
  obtain ⟨tgt, htgt⟩ := Option.isSome_iff_exists.mp
    (findIdxOpt_isSome (p := fun item => item.id == b) hrb (by simp [hrbid]))
  obtain ⟨hsrclt, hsrcp⟩ := findIdxOpt_spec hsrc
  obtain ⟨htgtlt, _⟩ := findIdxOpt_spec htgt
  obtain ⟨hsecond, _, hvirt⟩ := dndkit_commit_eq data a b hsrc htgt hab hsrclt htgtlt
  have hgetdata : data[src]? = some (data.get ⟨src, hsrclt⟩) := by
    rw [List.getElem?_eq_getElem hsrclt]
    simp [List.get_eq_getElem]
  have hxid : (data.get ⟨src, hsrclt⟩).id = a := eq_of_beq hsrcp
  have htle : tgt ≤ (data.eraseIdx src).length := by
    rw [List.length_eraseIdx, if_pos hsrclt]
    omega
  refine ⟨src, tgt, data.get ⟨src, hsrclt⟩, hsrc, htgt, hgetdata, hxid, hsecond, hvirt, ?_⟩
  have hpx : (fun r => !(r.id == a)) (data.get ⟨src, hsrclt⟩) = false := by
    show (!((data.get ⟨src, hsrclt⟩).id == a)) = false
    rw [hxid]
    simp
  exact filter_insertIdx_eraseIdx data hsrclt rfl htle hpx

/-- Witness for C6 at a concrete input. -/
theorem secondTable_move_semantics_stable_witness :
    ∃ src tgt x,
      findIdxOpt (fun item => item.id == 1) [row1, row2, row3] = some src ∧
      findIdxOpt (fun item => item.id == 3) [row1, row2, row3] = some tgt ∧
      [row1, row2, row3][src]? = some x ∧ x.id = 1 ∧
      SecondTable.handleDragEnd [row1, row2, row3] 1 (some 3) =
        some ((([row1, row2, row3].eraseIdx src).insertIdx tgt x).map some) ∧
      VirtuosoTable.handleDragEnd [row1, row2, row3] 1 (some 3) =
        some ((([row1, row2, row3].eraseIdx src).insertIdx tgt x).map some) ∧
      (([row1, row2, row3].eraseIdx src).insertIdx tgt x).filter (fun r => !(r.id == 1)) =
        [row1, row2, row3].filter (fun r => !(r.id == 1)) :=
  secondTable_move_semantics_stable [row1, row2, row3] 1 3 (by decide) (by decide)
    (by decide)

/-- Commit shape of the WindowTable handler: a committed drag-end implies the
guard held and exposes the committed array. -/
theorem windowTable_commit_shape (data : List RowData) (sorting : List SortRule)
    (draggedId : String) (rowIndex : Nat) (out : List (Option RowData))
    (hcommit : (WindowTable.handleDragEnd data sorting draggedId rowIndex).1 = some out) :
    (jsFindIndex (fun row => toString row.id == draggedId) (sortedRows sorting data) != -1 &&
     jsFindIndex (fun row => toString row.id == draggedId) (sortedRows sorting data) !=
       (rowIndex : Int)) = true ∧
    out = jsSpliceInsert
      (jsSpliceDelete1 (data.map some)
        (jsFindIndex (fun item => toString item.id == draggedId) data)).1
      (match (sortedRows sorting data)[rowIndex]? with
       | some target => jsIndexOf data target
       | none => -1)
      (jsSpliceDelete1 (data.map some)
        (jsFindIndex (fun item => toString item.id == draggedId) data)).2.join := by
  simp only [WindowTable.handleDragEnd] at hcommit
  split at hcommit
  next hguard => exact ⟨hguard, (Option.some.inj hcommit).symm⟩
  next hguard => exact absurd hcommit (by simp)

/-- C1 (corrected): in the `WindowTable.tsx` / `part_000` variant, every
committed drag-end resolves BOTH ends of the gesture against the canonical
data array: whatever sort is active, the committed array equals the spec's
identifier-resolved move of the dragged row onto the identifier of the row
displayed at the drop position.  (The `part_001` variant instead uses the
displayed position index directly as the target, so the claim fails there —
see its counterexample.) -/
theorem windowTable_resolves_by_identifier
    (data : List RowData) (sorting : List SortRule) (draggedId : String) (rowIndex : Nat)
    (a target : RowData) (out : List (Option RowData))
    (hnd : (data.map RowData.id).Nodup)
    (ha : a ∈ data)
    (hid : ∀ r ∈ data, (toString r.id == draggedId) = (r.id == a.id))
    (htargetq : (sortedRows sorting data)[rowIndex]? = some target)
    (hcommit : (WindowTable.handleDragEnd data sorting draggedId rowIndex).1 = some out) :
    out = (moveByIds data a.id target.id).map some := by
  obtain ⟨hguard, hout⟩ :=
    windowTable_commit_shape data sorting draggedId rowIndex out hcommit
  have hperm := sortedRows_perm sorting data
  have hcongrS : findIdxOpt (fun item => toString item.id == draggedId) data =
      findIdxOpt (fun item => item.id == a.id) data := findIdxOpt_congr hid
  obtain ⟨src, hsrc⟩ := Option.isSome_iff_exists.mp
    (findIdxOpt_isSome (p := fun item => item.id == a.id) ha (by simp))
  obtain ⟨hsrclt, hsrcp⟩ := findIdxOpt_spec hsrc
  have hsrceq : data.get ⟨src, hsrclt⟩ = a :=
    id_inj_of_nodup hnd (List.get_mem data src hsrclt) ha (eq_of_beq hsrcp)
  have hrowlt : rowIndex < (sortedRows sorting data).length := by
    by_contra hge
    rw [List.getElem?_eq_none (Nat.le_of_not_lt hge)] at htargetq
    exact absurd htargetq (by simp)
  have htgetrows : (sortedRows sorting data).get ⟨rowIndex, hrowlt⟩ = target := by
    rw [List.get_eq_getElem, ← Option.some.injEq, ← List.getElem?_eq_getElem hrowlt]
    exact htargetq
  have htmemrows : target ∈ sortedRows sorting data := by
    rw [← htgetrows]
    exact List.get_mem _ _ _
  have htmem : target ∈ data := hperm.mem_iff.mp htmemrows
  obtain ⟨tgt, htgtq⟩ := Option.isSome_iff_exists.mp
    (findIdxOpt_isSome (p := fun y => y == target) htmem (by simp))
  obtain ⟨htgtlt, htgtp⟩ := findIdxOpt_spec htgtq
  have hcongrT : findIdxOpt (fun y => y == target) data =
      findIdxOpt (fun y => y.id == target.id) data := by
    apply findIdxOpt_congr
    intro y hy
    by_cases hyt : y = target
    · subst hyt
      simp
    · have hidne : y.id ≠ target.id := fun he => hyt (id_inj_of_nodup hnd hy htmem he)
      simp [hyt, hidne]
  have hndrows : ((sortedRows sorting data).map RowData.id).Nodup :=
    ((hperm.map RowData.id).nodup_iff).mpr hnd
  have hamemrows : a ∈ sortedRows sorting data := hperm.mem_iff.mpr ha
  obtain ⟨dsi, hdsi⟩ := Option.isSome_iff_exists.mp
    (findIdxOpt_isSome (p := fun row => row.id == a.id) hamemrows (by simp))
  obtain ⟨hdsilt, hdsip⟩ := findIdxOpt_spec hdsi
  have hcongrR :
      findIdxOpt (fun row => toString row.id == draggedId) (sortedRows sorting data) =
      findIdxOpt (fun row => row.id == a.id) (sortedRows sorting data) :=
    findIdxOpt_congr (fun r hr => hid r (hperm.mem_iff.mp hr))
  have haneq : a.id ≠ target.id := by
    intro he
    have h1 : ((sortedRows sorting data).get ⟨dsi, hdsilt⟩).id =
        ((sortedRows sorting data).get ⟨rowIndex, hrowlt⟩).id := by
      rw [htgetrows, ← he]
      exact eq_of_beq hdsip
    have hde : dsi = rowIndex := idx_eq_of_nodup_ids hndrows hdsilt hrowlt h1
    rw [Bool.and_eq_true, bne_iff_ne, bne_iff_ne] at hguard
    have hjf : jsFindIndex (fun row => toString row.id == draggedId)
        (sortedRows sorting data) = (rowIndex : Int) := by
      rw [jsFindIndex_of_some (hcongrR.trans hdsi), hde]
    exact hguard.2 hjf
  have hgetdata : data[src]? = some a := by
    rw [List.getElem?_eq_getElem hsrclt, ← hsrceq]
    simp [List.get_eq_getElem]
  have hgetmap : (data.map some)[src]? = some (some a) := by
    rw [List.getElem?_map, hgetdata]
    rfl
  have hfs : jsFindIndex (fun item => toString item.id == draggedId) data = (src : Int) :=
    jsFindIndex_of_some (hcongrS.trans hsrc)
  have hidx : jsIndexOf data target = (tgt : Int) := jsFindIndex_of_some htgtq
  have htgtle : tgt ≤ ((data.map some).eraseIdx src).length := by
    rw [map_eraseIdx_comm, List.length_map, List.length_eraseIdx, if_pos hsrclt]
    omega
  have htgtle2 : tgt ≤ (data.eraseIdx src).length := by
    rw [List.length_eraseIdx, if_pos hsrclt]
    omega
  rw [hfs, htargetq, jsSpliceDelete1_fst, jsSpliceDelete1_snd, hgetmap] at hout
  rw [show (some (some a) : Option (Option RowData)).join = some a from rfl] at hout
  simp only [] at hout
  rw [hidx, jsSpliceInsert_natCast _ htgtle, map_eraseIdx_comm,
    map_insertIdx_comm some (data.eraseIdx src) htgtle2 a] at hout
  have hmove : moveByIds data a.id target.id = (data.eraseIdx src).insertIdx tgt a := by
    simp only [moveByIds]
    rw [if_neg haneq, hsrc, hcongrT.symm.trans htgtq]
    simp only []
    rw [hgetdata]
  rw [hout, hmove]

/-- Witness for C1's amended theorem at the scenario input: dragging id 3
onto displayed index 2 (the row with id 1) under the descending sort. -/
theorem windowTable_resolves_by_identifier_witness :
    (([row1, row2, row3].map RowData.id).Nodup ∧
      row3 ∈ [row1, row2, row3] ∧
      (∀ r ∈ [row1, row2, row3], (toString r.id == "3") = (r.id == row3.id)) ∧
      (sortedRows idDescSort [row1, row2, row3])[2]? = some row1 ∧
      (WindowTable.handleDragEnd [row1, row2, row3] idDescSort "3" 2).1 =
        some [some row3, some row1, some row2]) ∧
    [some row3, some row1, some row2] =
      (moveByIds [row1, row2, row3] row3.id row1.id).map some :=
  ⟨⟨by decide, by decide, by decide, by decide, by decide⟩,
    windowTable_resolves_by_identifier [row1, row2, row3] idDescSort "3" 2 row3 row1
      [some row3, some row1, some row2] (by decide) (by decide) (by decide) (by decide)
      (by decide)⟩

/-! ## Claim C8: the input array is never mutated in place -/

theorem JsHeap.read_write_ne (h : JsHeap) (r s : ArrRef) (v : List (Option RowData))
    (hne : r ≠ s) : (h.write r v).read s = h.read s := by
  simp [JsHeap.read, JsHeap.write, List.getElem?_set_ne hne]

theorem JsHeap.read_alloc_old (h : JsHeap) (v : List (Option RowData)) (s : ArrRef)
    (hs : s < h.arrays.length) : (h.alloc v).1.read s = h.read s := by
  simp [JsHeap.read, JsHeap.alloc, List.getElem?_append_left hs]

theorem JsHeap.alloc_snd (h : JsHeap) (v : List (Option RowData)) :
    (h.alloc v).2 = h.arrays.length := rfl

/-- C8 (confirmed): for every drag-end event (committed or not), the handler
of `SecondTable.tsx` (and the identically-built copy loop of
`unnamed/part_001`) leaves the contents of the input array untouched — all
`splice` mutations hit only the freshly allocated `[...data]` copy — and any
array passed to the reorder callback is a new allocation, distinct from the
input reference. -/
theorem secondTable_no_input_mutation (h : JsHeap) (dataRef : ArrRef) (a : Nat)
    (over : Option Nat) (href : dataRef < h.arrays.length) :
    (SecondTable.handleDragEndHeap h dataRef a over).1.read dataRef = h.read dataRef ∧
    ∀ r, (SecondTable.handleDragEndHeap h dataRef a over).2 = some r → r ≠ dataRef := by
  match over with
  | none =>
    exact ⟨rfl, fun r hr => by simp [SecondTable.handleDragEndHeap] at hr⟩
  | some overId =>
    by_cases hab : (a != overId) = true
    · have hne : h.arrays.length ≠ dataRef := Nat.ne_of_gt href
      simp only [SecondTable.handleDragEndHeap, if_pos hab, JsHeap.alloc_snd]
      constructor
      · rw [JsHeap.read_write_ne _ _ _ _ hne, JsHeap.read_write_ne _ _ _ _ hne,
          JsHeap.read_alloc_old _ _ _ href]
      · intro r hr
        have hlen : h.arrays.length = r := Option.some.inj hr
        exact hlen ▸ hne
    · refine ⟨?_, ?_⟩
      · simp only [SecondTable.handleDragEndHeap, if_neg hab]
      · intro r hr
        simp only [SecondTable.handleDragEndHeap, if_neg hab] at hr
        exact absurd hr (by simp)

/-- Witness for C8 at a concrete heap holding one two-row array. -/
theorem secondTable_no_input_mutation_witness :
    (0 : Nat) < (JsHeap.mk [[some row1, some row2]]).arrays.length ∧
    ((SecondTable.handleDragEndHeap ⟨[[some row1, some row2]]⟩ 0 1 (some 2)).1.read 0 =
        JsHeap.read ⟨[[some row1, some row2]]⟩ 0 ∧
      ∀ r, (SecondTable.handleDragEndHeap ⟨[[some row1, some row2]]⟩ 0 1 (some 2)).2 =
          some r → r ≠ 0) :=
  ⟨by decide,
    secondTable_no_input_mutation ⟨[[some row1, some row2]]⟩ 0 1 (some 2) (by decide)⟩
